import Mathlib

/-!
# ABRoot `core`: text diff/merge and package diff

A shallow embedding of `core/diff.go` (`MergeDiff`, `DiffFiles`, `WriteDiff`) and
`core/package-diff.go` (`BaseImagePackageDiff`, `OverlayPackageDiff`).

Conventions of the embedding:

* a Go `error` result is an `Option GoError` (`none` is `nil`);
* a Go `[]byte` is an `Option Bytes` (`none` is the `nil` slice, `len nil = 0`);
* external processes, the HTTP client, the package manager, the dpkg resolver, the
  repository lookup and `diff.DiffPackages` are collaborators, passed as parameters;
* every collaborator invocation is appended to a call log carried in the state, so that
  "is not invoked" is a statement about that log;
* `PrintVerbose` only logs and is left out.
-/

namespace ABRoot

/-! ## Go values -/

/-- A Go `error` value that is not `nil`: either an `*exec.ExitError` carrying the exit code
of the process, or any other error value, identified by its message. -/
inductive GoError where
  | exitError (code : Int)
  | other (msg : String)
  deriving DecidableEq, Repr

/-- The contents of a non-nil byte slice. -/
abbrev Bytes := List (Fin 256)

/-- Go `len` on a `[]byte`: the `nil` slice has length zero. -/
def sliceLen : Option Bytes → Nat
  | none => 0
  | some bs => bs.length

/-! ## External processes (`os/exec`) -/

/-- What happened to an external process started through `exec.Cmd.Run`: it could not be run
to completion at all (not found, could not start, I/O plumbing failed), or it ran and exited
with a status (`-1` when killed by a signal). -/
inductive ProcOutcome where
  | notRun (reason : String)
  | exited (status : Int)
  deriving DecidableEq, Repr

/-- The error returned by `cmd.Run()`: `nil` exactly when the command ran and exited with
status zero, an `*exec.ExitError` when it ran and exited otherwise, another error when it did
not run. -/
def cmdRun : ProcOutcome → Option GoError
  | .notRun reason => some (.other reason)
  | .exited status => if status = 0 then none else some (.exitError status)

/-- The external tools used by `diff.go`, over a world `W` (the file system).
`diffProc src dst w` is `diff -u src dst`: the new world, what was written to standard
output, and the outcome. `patchProc dest stdin w` is `patch dest` fed `stdin`. -/
structure Procs (W : Type) where
  diffProc : String → String → W → W × Bytes × ProcOutcome
  patchProc : String → Bytes → W → W × ProcOutcome

/-- One process invocation. -/
inductive ProcCall where
  | diff (sourceFile destFile : String)
  | patch (destFile : String) (stdin : Bytes)
  deriving DecidableEq, Repr

/-- The state threaded through `diff.go`: the world and the log of processes run so far. -/
structure St (W : Type) where
  world : W
  calls : List ProcCall

/-! ## `core/diff.go` -/

/-- The function `DiffFiles(sourceFile, destFile)`: runs `diff -u`, takes the exit code from the error when
it is an `*exec.ExitError` (otherwise `errCode` stays `0`), and returns the captured output
when the code is `1`, `nil, nil` in every other case. -/
def DiffFiles {W : Type} (procs : Procs W) (sourceFile destFile : String) (st : St W) :
    St W × Option Bytes × Option GoError :=
  let ran := procs.diffProc sourceFile destFile st.world
  let out : Bytes := ran.2.1
  let err := cmdRun ran.2.2
  let st1 : St W := { world := ran.1, calls := st.calls ++ [ProcCall.diff sourceFile destFile] }
  let errCode : Int :=
    match err with
    | some (.exitError code) => code
    | _ => 0
  if errCode = 1 then
    (st1, some out, none)
  else
    (st1, none, none)

/-- The function `WriteDiff(destFile, diffLines)`: nothing to do when `len(diffLines) == 0`; otherwise runs
`patch destFile` with the diff on standard input and returns the error of `cmd.Run()`. -/
def WriteDiff {W : Type} (procs : Procs W) (destFile : String) (diffLines : Option Bytes)
    (st : St W) : St W × Option GoError :=
  if sliceLen diffLines = 0 then
    (st, none)
  else
    let stdin : Bytes := diffLines.getD []
    let ran := procs.patchProc destFile stdin st.world
    let st1 : St W := { world := ran.1, calls := st.calls ++ [ProcCall.patch destFile stdin] }
    match cmdRun ran.2 with
    | some err => (st1, some err)
    | none => (st1, none)

/-- The body of `MergeDiff`, with the two functions it calls taken as arguments: compute the
diff, return its error if there is one, else write the diff and return the error of that, else
`nil`. -/
def MergeDiffWith {S : Type}
    (diffFiles : String → String → S → S × Option Bytes × Option GoError)
    (writeDiff : String → Option Bytes → S → S × Option GoError)
    (sourceFile destFile : String) (st : S) : S × Option GoError :=
  match diffFiles sourceFile destFile st with
  | (st1, _, some err) => (st1, some err)
  | (st1, diffLines, none) =>
    match writeDiff destFile diffLines st1 with
    | (st2, some err) => (st2, some err)
    | (st2, none) => (st2, none)

/-- The function `MergeDiff(sourceFile, destFile)`: its body, calling `DiffFiles` and
`WriteDiff`. -/
def MergeDiff {W : Type} (procs : Procs W) (sourceFile destFile : String) (st : St W) :
    St W × Option GoError :=
  MergeDiffWith (DiffFiles procs) (WriteDiff procs) sourceFile destFile st

/-- The composition the specification gives for `MergeDiff`,
`ApplyDiff(destPath, ComputeDiff(sourcePath, destPath))`, failing fast: when computing the diff
fails its error is the result and applying is not attempted, otherwise the result is that of
applying the computed diff to the destination. -/
def applyAfterCompute {S : Type}
    (computeDiff : String → String → S → S × Option Bytes × Option GoError)
    (applyDiff : String → Option Bytes → S → S × Option GoError)
    (sourcePath destPath : String) (st : S) : S × Option GoError :=
  let computed := computeDiff sourcePath destPath st
  match computed.2.2 with
  | some err => (computed.1, some err)
  | none => applyDiff destPath computed.2.1 computed.1

/-- Whether a log entry is a run of `patch`. -/
def ProcCall.isPatch : ProcCall → Bool
  | .patch _ _ => true
  | .diff _ _ => false

/-! ### Example worlds -/

/-- A file system with a single file of interest, given by its content. -/
abbrev OneFile := Bytes

/-- Tools for the examples: `diff` exits with a fixed status after printing a fixed output,
`patch` replaces the file by its input and exits with a fixed status. -/
def fixedProcs (diffOut : Bytes) (diffOutcome patchOutcome : ProcOutcome) : Procs OneFile where
  diffProc := fun _ _ w => (w, diffOut, diffOutcome)
  patchProc := fun _ stdin _ => (stdin, patchOutcome)

/-- The initial example state: file content `[1, 2, 3]`, nothing run yet. -/
def st0 : St OneFile := { world := [1, 2, 3], calls := [] }

/-! ## Go maps and dynamic values -/

/-- A Go `map[string]string`, as its entries; keys are kept pairwise distinct by `set`.
The order of the entries carries no meaning: a `range` loop visits the keys in an order chosen
by the runtime (see `OverlayEnv.rangeOrder`). -/
structure GoMap where
  entries : List (String × String)
  deriving DecidableEq, Repr

/-- The value stored under `k` in a list of entries, if any. -/
def lookupEntry {β : Type} (k : String) : List (String × β) → Option β
  | [] => none
  | e :: rest => if e.1 = k then some e.2 else lookupEntry k rest

/-- The literal `map[string]string{}`. -/
def GoMap.empty : GoMap := ⟨[]⟩

/-- The lookup `m[k]` with presence: `none` when `k` is not a key. -/
def GoMap.get? (m : GoMap) (k : String) : Option String :=
  lookupEntry k m.entries

/-- The assignment `m[k] = v`: overwrites an existing entry for `k`. -/
def GoMap.set (m : GoMap) (k v : String) : GoMap :=
  ⟨(k, v) :: m.entries.filter (fun e => e.1 ≠ k)⟩

/-- The keys of the map. -/
def GoMap.keys (m : GoMap) : List String :=
  m.entries.map Prod.fst

/-- Whether `k` is a key of the map. -/
def GoMap.contains (m : GoMap) (k : String) : Bool :=
  (m.get? k).isSome

/-- A Go `any` as produced by decoding JSON: only the distinction between a string and
anything else matters to the code. -/
inductive GoAny where
  | str (s : String)
  | num (n : Int)
  | bool (b : Bool)
  | null
  | arr (items : List GoAny)
  | obj (fields : List (String × GoAny))

/-- The type assertion `x.(string)` on the result of indexing a `map[string]any`: it
succeeds exactly on a present string value (indexing a missing key gives the nil interface,
on which the assertion fails). -/
def assertString : Option GoAny → Option String
  | some (.str s) => some s
  | _ => none

/-! ## `core/package-diff.go` -/

/-- Modelled from the spec: the type `diff.PackageDiff` is declared in the `differ` library;
the specification's PackageDiffEntry has a name, an old version and a new version. -/
structure PackageDiff where
  name : String
  oldVersion : String
  newVersion : String
  deriving DecidableEq, Repr

/-- The four lists `added, upgraded, downgraded, removed`. -/
structure DiffLists where
  added : List PackageDiff
  upgraded : List PackageDiff
  downgraded : List PackageDiff
  removed : List PackageDiff
  deriving DecidableEq, Repr

/-- The five named results of `BaseImagePackageDiff` and `OverlayPackageDiff`. -/
structure PkgDiffReturn where
  added : List PackageDiff
  upgraded : List PackageDiff
  downgraded : List PackageDiff
  removed : List PackageDiff
  err : Option GoError
  deriving DecidableEq, Repr

/-- The four lists of a return value. -/
def PkgDiffReturn.lists (r : PkgDiffReturn) : DiffLists :=
  { added := r.added, upgraded := r.upgraded, downgraded := r.downgraded, removed := r.removed }

/-- A bare `return` before the four lists were assigned: they are still `nil`. -/
def returnErr (err : GoError) : PkgDiffReturn :=
  { added := [], upgraded := [], downgraded := [], removed := [], err := some err }

/-- The function `strings.Split` on a one-character separator, on character lists: always at least one
component. -/
def splitOnChar (sep : Char) : List Char → List (List Char)
  | [] => [[]]
  | c :: cs =>
    match splitOnChar sep cs with
    | [] => [[]]
    | first :: rest => if c = sep then [] :: first :: rest else (c :: first) :: rest

/-- The call `strings.Split(s, "/")`. -/
def stringsSplitSlash (s : String) : List String :=
  (splitOnChar '/' s.toList).map String.mk

/-- The response of the image-diff service as the code uses it: status code, status text, and
the result of `io.ReadAll(resp.Body)`. -/
structure HttpResponse where
  statusCode : Nat
  status : String
  readAll : Except GoError Bytes

/-- The collaborators of `BaseImagePackageDiff`: the settings `settings.Cnf.Name` and
`settings.Cnf.DifferURL`, `http.NewRequest` (its error, by method, URL and body),
`http.DefaultClient.Do` (by method, URL and body), and `json.Unmarshal` into the struct with
fields `Added, Upgraded, Downgraded, Removed`. -/
structure HttpEnv where
  cnfName : String
  cnfDifferURL : String
  newRequest : String → String → String → Option GoError
  clientDo : String → String → String → Except GoError HttpResponse
  jsonUnmarshal : Bytes → Except GoError DiffLists

/-- The constant `http.StatusOK`. -/
def statusOK : Nat := 200

/-- The request URL `fmt.Sprintf("%s/images/%s/diff", DifferURL, imageName)`, where
`imageName` is the last component of `settings.Cnf.Name` split at `/`. -/
def reqUrl (env : HttpEnv) : String :=
  let imageComponents := stringsSplitSlash env.cnfName
  let imageName := imageComponents.getLastD ""
  env.cnfDifferURL ++ "/images/" ++ imageName ++ "/diff"

/-- The request body built from the two digests. -/
def reqBody (currentDigest newDigest : String) : String :=
  "\x7b\"old_digest\": \"" ++ currentDigest ++ "\", \"new_digest\": \"" ++ newDigest ++ "\"\x7d"

/-- The function `BaseImagePackageDiff(currentDigest, newDigest)`: builds the request, sends
it, checks the status, reads the body and parses it; every failure is a bare `return` with the
error set and the four lists still `nil`, and only after a successful parse are the four lists
assigned from the parsed body. -/
def BaseImagePackageDiff (env : HttpEnv) (currentDigest newDigest : String) : PkgDiffReturn :=
  let url := reqUrl env
  let body := reqBody currentDigest newDigest
  match env.newRequest "GET" url body with
  | some err => returnErr err
  | none =>
    match env.clientDo "GET" url body with
    | .error err => returnErr err
    | .ok resp =>
      if resp.statusCode ≠ statusOK then
        returnErr (.other ("package diff server returned non-OK status " ++ resp.status))
      else
        match resp.readAll with
        | .error err => returnErr err
        | .ok contents =>
          match env.jsonUnmarshal contents with
          | .error err => returnErr err
          | .ok pkgDiff =>
            { added := pkgDiff.added, upgraded := pkgDiff.upgraded,
              downgraded := pkgDiff.downgraded, removed := pkgDiff.removed, err := none }

/-- One collaborator invocation of `OverlayPackageDiff`. -/
inductive PkgCall where
  | getAddPackages
  | dpkgBatchGetPackageVersion (pkgs : List String)
  | getRepoContentsForPkg (pkgName : String)
  | diffPackages (oldVersions newVersions : GoMap)
  deriving DecidableEq, Repr

/-- Whether a log entry is a call of `diff.DiffPackages`. -/
def PkgCall.isDiffPackages : PkgCall → Bool
  | .diffPackages _ _ => true
  | _ => false

/-- The collaborators of `OverlayPackageDiff`: the package manager's `GetAddPackages`,
`dpkg.DpkgBatchGetPackageVersion`, `GetRepoContentsForPkg`, the order in which the runtime
lets `range` visit the keys of a map, and `diff.DiffPackages`. -/
structure OverlayEnv where
  getAddPackages : Except GoError (List String)
  dpkgBatchGetPackageVersion : List String → List String
  getRepoContentsForPkg : String → Except GoError (List (String × GoAny))
  rangeOrder : GoMap → List String
  diffPackages : GoMap → GoMap → DiffLists

/-- The first loop of `OverlayPackageDiff`, `for i := 0; i < len(addedPkgs); i++`, with
`remaining` iterations still to run from index `i`: a name goes into `localAdded` when the
version at its index is not empty. `none` is the runtime panic of an index out of range. -/
def localAddedLoop (addedPkgs localAddedVersions : List String) :
    Nat → Nat → GoMap → Option GoMap
  | 0, _, localAdded => some localAdded
  | remaining + 1, i, localAdded =>
    match localAddedVersions[i]?, addedPkgs[i]? with
    | some version, some pkg =>
      if version ≠ "" then
        localAddedLoop addedPkgs localAddedVersions remaining (i + 1) (localAdded.set pkg version)
      else
        localAddedLoop addedPkgs localAddedVersions remaining (i + 1) localAdded
    | _, _ => none

/-- The mapping `localAdded` built from the overlay package names and their resolved
versions. -/
def buildLocalAdded (addedPkgs localAddedVersions : List String) : Option GoMap :=
  localAddedLoop addedPkgs localAddedVersions addedPkgs.length 0 GoMap.empty

/-- The error made with `fmt.Errorf` when the upstream version is not a string. -/
def unexpectedValueErr (pkgName : String) : GoError :=
  .other ("PackageDiff.OverlayPackageDiff(2):err: Unexpected value when retrieving upstream version of \x27"
    ++ pkgName ++ "\x27")

/-- The second loop of `OverlayPackageDiff`, `for pkgName := range localAdded`, over the keys
still to visit: looks the package up, returns at the first error or at the first response
whose `"version"` is not a string, and otherwise records the version in `remoteAdded`. -/
def remoteAddedLoop (env : OverlayEnv) :
    List String → GoMap → List PkgCall → Except GoError GoMap × List PkgCall
  | [], remoteAdded, calls => (.ok remoteAdded, calls)
  | pkgName :: rest, remoteAdded, calls =>
    let calls1 := calls ++ [PkgCall.getRepoContentsForPkg pkgName]
    match env.getRepoContentsForPkg pkgName with
    | .error err => (.error err, calls1)
    | .ok pkgInfo =>
      match assertString (lookupEntry "version" pkgInfo) with
      | none => (.error (unexpectedValueErr pkgName), calls1)
      | some version => remoteAddedLoop env rest (remoteAdded.set pkgName version) calls1

/-- The function `OverlayPackageDiff()`: the named results and the log of collaborator calls;
`none` is a runtime panic. Every failure is a bare `return` with the error set and the four
lists still `nil`. `NewPackageManager(false)` only makes the receiver of `GetAddPackages` and
is not logged. -/
def OverlayPackageDiff (env : OverlayEnv) : Option (PkgDiffReturn × List PkgCall) :=
  match env.getAddPackages with
  | .error err => some (returnErr err, [PkgCall.getAddPackages])
  | .ok addedPkgs =>
    let localAddedVersions := env.dpkgBatchGetPackageVersion addedPkgs
    let calls1 := [PkgCall.getAddPackages, PkgCall.dpkgBatchGetPackageVersion addedPkgs]
    match buildLocalAdded addedPkgs localAddedVersions with
    | none => none
    | some localAdded =>
      match remoteAddedLoop env (env.rangeOrder localAdded) GoMap.empty calls1 with
      | (.error err, calls2) => some (returnErr err, calls2)
      | (.ok remoteAdded, calls2) =>
        let d := env.diffPackages localAdded remoteAdded
        some ({ added := d.added, upgraded := d.upgraded, downgraded := d.downgraded,
                removed := d.removed, err := none },
              calls2 ++ [PkgCall.diffPackages localAdded remoteAdded])

/-! ### The classification of `DiffPackages` -/

/-- The outcome of classifying one package name. -/
inductive PkgClass where
  | added
  | removed
  | unchanged
  | upgraded
  | downgraded
  deriving DecidableEq, Repr

/-- Modelled from the spec: step 3 of the `DiffPackages` algorithm (the function is in the
`differ` library, not in this repository's sources). A name present in `new` only is added,
in `old` only removed, in both with equal versions unchanged, in both with `n` ordered after
`o` upgraded, and otherwise downgraded. -/
def classify (orderedAfter : String → String → Bool) : Option String → Option String → Option PkgClass
  | none, none => none
  | none, some _ => some .added
  | some _, none => some .removed
  | some o, some n =>
    if o = n then some .unchanged
    else if orderedAfter n o then some .upgraded
    else some .downgraded

/-- Modelled from the spec: step 1 of the `DiffPackages` algorithm, the union of the package
names of both mappings. -/
def unionNames (oldVersions newVersions : GoMap) : List String :=
  oldVersions.keys ++ newVersions.keys.filter (fun k => !oldVersions.contains k)

/-- Modelled from the spec: the entries of one class, with `""` for an absent version. -/
def entriesOfClass (orderedAfter : String → String → Bool) (oldVersions newVersions : GoMap)
    (c : PkgClass) : List PackageDiff :=
  (unionNames oldVersions newVersions).filterMap fun name =>
    if classify orderedAfter (oldVersions.get? name) (newVersions.get? name) = some c then
      some { name := name, oldVersion := (oldVersions.get? name).getD "",
             newVersion := (newVersions.get? name).getD "" }
    else none

/-- Modelled from the spec: `DiffPackages(oldVersions, newVersions)` of the `differ` library,
following the algorithm of §4.2 with the version comparator as a parameter. -/
def specDiffPackages (orderedAfter : String → String → Bool) (oldVersions newVersions : GoMap) :
    DiffLists :=
  { added := entriesOfClass orderedAfter oldVersions newVersions .added
    upgraded := entriesOfClass orderedAfter oldVersions newVersions .upgraded
    downgraded := entriesOfClass orderedAfter oldVersions newVersions .downgraded
    removed := entriesOfClass orderedAfter oldVersions newVersions .removed }

/-- The upstream version the second loop of `OverlayPackageDiff` obtains for a package: the
string stored under `"version"` in the response of a successful lookup, and `none` when the
lookup fails, the response has no `"version"` field, or that field is not a string. -/
def upstreamVersion (env : OverlayEnv) (pkgName : String) : Option String :=
  match env.getRepoContentsForPkg pkgName with
  | .error _ => none
  | .ok pkgInfo => assertString (lookupEntry "version" pkgInfo)

/-- The error with which the second loop of `OverlayPackageDiff` returns at a package whose
upstream version cannot be obtained: the error of the lookup itself, or the one made for an
unexpected `"version"` value. -/
def lookupError (env : OverlayEnv) (pkgName : String) : GoError :=
  match env.getRepoContentsForPkg pkgName with
  | .error err => err
  | .ok _ => unexpectedValueErr pkgName

/-! ### Example collaborators -/

/-- A repository for the examples: `vim` is at version `9.1`, the response for `htop` has no
`"version"` field, the response for `curl` has a number there, and any other lookup fails. -/
def exampleRepo (pkgName : String) : Except GoError (List (String × GoAny)) :=
  if pkgName = "vim" then .ok [("name", .str "vim"), ("version", .str "9.1")]
  else if pkgName = "htop" then .ok [("name", .str "htop")]
  else if pkgName = "curl" then .ok [("version", .num 8)]
  else .error (.other "package not found")

/-- A version comparator for the examples: by length, then by the characters. -/
def exampleOrderedAfter (n o : String) : Bool :=
  decide (o.length < n.length) || (decide (o.length = n.length) && decide (o.data < n.data))

/-- Collaborators for the examples: the overlay packages and their installed versions are
given, the repository is `exampleRepo`, `range` visits the keys in the order of the entries,
and `DiffPackages` is the classification of the specification. -/
def exampleEnv (pkgs : Except GoError (List String)) (versions : List String) : OverlayEnv where
  getAddPackages := pkgs
  dpkgBatchGetPackageVersion := fun _ => versions
  getRepoContentsForPkg := exampleRepo
  rangeOrder := GoMap.keys
  diffPackages := specDiffPackages exampleOrderedAfter

/-- An image-diff service for the examples, answering every request with the given response;
the body `[1]` parses to one upgraded package and any other body fails to parse. -/
def exampleHttp (resp : Except GoError HttpResponse) : HttpEnv where
  cnfName := "ghcr.io/vanilla-os/desktop"
  cnfDifferURL := "https://differ.vanillaos.org"
  newRequest := fun _ _ _ => none
  clientDo := fun _ _ _ => resp
  jsonUnmarshal := fun contents =>
    if contents = [1] then
      .ok { added := [], upgraded := [⟨"vim", "9.0", "9.1"⟩], downgraded := [], removed := [] }
    else .error (.other "unexpected end of JSON input")

/-! ## Theorems about `core/diff.go` -/

/-- The error returned by `cmd.Run()` is not `nil` exactly when the process did not run or
exited with a status other than zero. -/
theorem cmdRun_ne_none_iff (o : ProcOutcome) :
    cmdRun o ≠ none ↔ (∃ reason, o = .notRun reason) ∨ (∃ status, status ≠ 0 ∧ o = .exited status) := by
  cases o with
  | notRun reason => simp [cmdRun]
  | exited status =>
    by_cases h : status = 0
    · simp [cmdRun, h]
    · simp [cmdRun, h]

/-- The error result of `DiffFiles` is `nil` whatever the diff process did. -/
theorem DiffFiles_err_none {W : Type} (procs : Procs W) (sourceFile destFile : String)
    (st : St W) : (DiffFiles procs sourceFile destFile st).2.2 = none := by
  unfold DiffFiles
  simp only []
  split <;> rfl

/-- The function `DiffFiles` runs the diff process once and nothing else. -/
theorem DiffFiles_calls {W : Type} (procs : Procs W) (sourceFile destFile : String)
    (st : St W) :
    (DiffFiles procs sourceFile destFile st).1.calls
      = st.calls ++ [ProcCall.diff sourceFile destFile] := by
  unfold DiffFiles
  simp only []
  split <;> rfl

/-- C1, evaluated on the code: when the diff process exits with status 2, and likewise when it
cannot be started, `DiffFiles` returns `nil` bytes and a `nil` error, the same pair it returns
for identical files, instead of an error. -/
theorem DiffFiles_failure_reported_as_no_diff :
    (DiffFiles (fixedProcs [] (.exited 2) (.exited 0)) "/missing" "/etc/fstab" st0).2
        = (none, none)
    ∧ (DiffFiles (fixedProcs [] (.notRun "exec: diff: not found") (.exited 0))
          "/etc/fstab.new" "/etc/fstab" st0).2 = (none, none)
    ∧ (DiffFiles (fixedProcs [] (.exited 0) (.exited 0)) "/etc/fstab" "/etc/fstab" st0).2
        = (none, none) := by
  refine ⟨?_, ?_, ?_⟩ <;> rfl

/-- C2: when the diff process exits with status 1, `DiffFiles` returns exactly the bytes the
process wrote to standard output and a `nil` error; when it exits with status 0, it returns
the `nil` slice and a `nil` error. -/
theorem DiffFiles_status_one_and_zero {W : Type} (procs : Procs W)
    (sourceFile destFile : String) (st : St W) :
    ((procs.diffProc sourceFile destFile st.world).2.2 = .exited 1 →
      (DiffFiles procs sourceFile destFile st).2
        = (some (procs.diffProc sourceFile destFile st.world).2.1, none))
    ∧ ((procs.diffProc sourceFile destFile st.world).2.2 = .exited 0 →
      (DiffFiles procs sourceFile destFile st).2 = (none, none)) := by
  constructor
  · intro h
    simp [DiffFiles, h, cmdRun]
  · intro h
    simp [DiffFiles, h, cmdRun]

/-- Witness for C2: a diff process that prints `[45, 43]` and exits with status 1, and one
that prints nothing and exits with status 0. -/
theorem DiffFiles_status_one_and_zero_witness :
    (DiffFiles (fixedProcs [45, 43] (.exited 1) (.exited 0)) "/a" "/b" st0).2
        = (some [45, 43], none)
    ∧ (DiffFiles (fixedProcs [] (.exited 0) (.exited 0)) "/a" "/a" st0).2 = (none, none) :=
  ⟨(DiffFiles_status_one_and_zero (fixedProcs [45, 43] (.exited 1) (.exited 0)) "/a" "/b" st0).1 rfl,
   (DiffFiles_status_one_and_zero (fixedProcs [] (.exited 0) (.exited 0)) "/a" "/a" st0).2 rfl⟩

/-- C3: `WriteDiff` called with the `nil` slice or with a zero-length slice returns a `nil`
error and leaves the state as it was: the world is unchanged and no process was run. -/
theorem WriteDiff_empty_is_noop {W : Type} (procs : Procs W) (destFile : String) (st : St W) :
    WriteDiff procs destFile none st = (st, none)
    ∧ WriteDiff procs destFile (some []) st = (st, none) := by
  constructor <;> rfl

/-- C4: for a diff that is not empty, `WriteDiff` runs the patch process exactly once, on the
destination and with the diff as its input, the world becomes what that process leaves, and
the returned error is not `nil` if and only if the patch process did not run or exited with a
status other than zero. -/
theorem WriteDiff_nonempty_runs_patch {W : Type} (procs : Procs W) (destFile : String)
    (diffLines : Bytes) (st : St W) (hne : diffLines ≠ []) :
    (WriteDiff procs destFile (some diffLines) st).1.calls
        = st.calls ++ [ProcCall.patch destFile diffLines]
    ∧ (WriteDiff procs destFile (some diffLines) st).1.world
        = (procs.patchProc destFile diffLines st.world).1
    ∧ ((WriteDiff procs destFile (some diffLines) st).2 ≠ none ↔
        ((∃ reason, (procs.patchProc destFile diffLines st.world).2 = .notRun reason)
          ∨ (∃ status, status ≠ 0 ∧
              (procs.patchProc destFile diffLines st.world).2 = .exited status))) := by
  have hlen : sliceLen (some diffLines) ≠ 0 := by
    simpa [sliceLen] using hne
  rw [← cmdRun_ne_none_iff]
  unfold WriteDiff
  rw [if_neg hlen]
  simp only [Option.getD_some]
  cases hrun : cmdRun (procs.patchProc destFile diffLines st.world).2 <;> simp

/-- Witness for C4: a patch process that exits with status 1 on the diff `[45]`. -/
theorem WriteDiff_nonempty_runs_patch_witness :
    ([45] : Bytes) ≠ []
    ∧ (WriteDiff (fixedProcs [] (.exited 0) (.exited 1)) "/etc/fstab" (some [45]) st0).1.calls
        = [ProcCall.patch "/etc/fstab" [45]]
    ∧ (WriteDiff (fixedProcs [] (.exited 0) (.exited 1)) "/etc/fstab" (some [45]) st0).2
        ≠ none :=
  have h := WriteDiff_nonempty_runs_patch (fixedProcs [] (.exited 0) (.exited 1)) "/etc/fstab"
    [45] st0 (by decide)
  ⟨by decide, h.1, h.2.2.mpr (Or.inr ⟨1, by decide, rfl⟩)⟩

/-- C5: `MergeDiff` is the composition `WriteDiff(dest, DiffFiles(source, dest))` with fail-fast
on the first step. The body of `MergeDiff` equals that composition for any pair of callees, so
in particular for `DiffFiles` and `WriteDiff`; and whenever the diff step returns an error,
the result is that same error on the state the diff step left, the write step not being
run. -/
theorem MergeDiff_eq_applyAfterCompute {W : Type} (procs : Procs W)
    (sourceFile destFile : String) (st : St W) :
    MergeDiff procs sourceFile destFile st
        = applyAfterCompute (DiffFiles procs) (WriteDiff procs) sourceFile destFile st
    ∧ (∀ (diffFiles : String → String → St W → St W × Option Bytes × Option GoError),
        MergeDiffWith diffFiles (WriteDiff procs) sourceFile destFile st
          = applyAfterCompute diffFiles (WriteDiff procs) sourceFile destFile st)
    ∧ (∀ (diffFiles : String → String → St W → St W × Option Bytes × Option GoError)
        (err : GoError), (diffFiles sourceFile destFile st).2.2 = some err →
        MergeDiffWith diffFiles (WriteDiff procs) sourceFile destFile st
          = ((diffFiles sourceFile destFile st).1, some err)) := by
  have key : ∀ (diffFiles : String → String → St W → St W × Option Bytes × Option GoError),
      MergeDiffWith diffFiles (WriteDiff procs) sourceFile destFile st
        = applyAfterCompute diffFiles (WriteDiff procs) sourceFile destFile st := by
    intro diffFiles
    unfold MergeDiffWith applyAfterCompute
    rcases hd : diffFiles sourceFile destFile st with ⟨st1, diffLines, _ | err⟩
    · simp only []
      rcases hw : WriteDiff procs destFile diffLines st1 with ⟨st2, _ | err2⟩ <;> rfl
    · rfl
  refine ⟨key _, key, ?_⟩
  intro diffFiles err herr
  rw [key]
  unfold applyAfterCompute
  simp only [herr]

/-- Witness for C5: a diff step that fails with an error on the example state. -/
theorem MergeDiff_eq_applyAfterCompute_witness :
    MergeDiffWith (fun _ _ (s : St OneFile) => (s, none, some (GoError.other "diff failed")))
        (WriteDiff (fixedProcs [] (.exited 0) (.exited 0))) "/a" "/b" st0
      = (st0, some (GoError.other "diff failed")) :=
  (MergeDiff_eq_applyAfterCompute (fixedProcs [] (.exited 0) (.exited 0)) "/a" "/b" st0).2.2
    (fun _ _ s => (s, none, some (GoError.other "diff failed"))) (GoError.other "diff failed") rfl


/-! ## Go maps -/

/-- Looking a key up after dropping the entries of another key. -/
theorem lookupEntry_filter_ne (k k' : String) (l : List (String × String)) :
    lookupEntry k (l.filter (fun e => e.1 ≠ k')) = if k = k' then none else lookupEntry k l := by
  induction l with
  | nil => simp [lookupEntry]
  | cons e rest ih =>
    simp only [ne_eq, decide_not] at ih ⊢
    by_cases he : e.1 = k'
    · by_cases hk : k = k'
      · simpa [List.filter_cons, he, hk] using ih
      · have hek : ¬ e.1 = k := fun h => hk (h.symm.trans he)
        have hek2 : ¬ k' = k := fun h => hk h.symm
        simp [List.filter_cons, he, ih, hk, lookupEntry, hek2]
    · by_cases hk : k = k'
      · have hek : ¬ e.1 = k := fun h => he (h.trans hk)
        simpa [List.filter_cons, he, hk, lookupEntry] using ih
      · simp [List.filter_cons, he, ih, hk, lookupEntry]

/-- Reading a map after an assignment. -/
theorem GoMap.get?_set (m : GoMap) (k v k' : String) :
    (m.set k v).get? k' = if k' = k then some v else m.get? k' := by
  unfold GoMap.get? GoMap.set
  by_cases h : k' = k
  · simp [lookupEntry, h]
  · have h2 : ¬ k = k' := fun e => h e.symm
    have hf := lookupEntry_filter_ne k' k m.entries
    simp only [ne_eq, decide_not, if_neg h] at hf
    simp [lookupEntry, h, h2, hf]

/-- A name is a key exactly when the lookup finds a value. -/
theorem mem_keys_iff_lookupEntry (k : String) (l : List (String × String)) :
    k ∈ l.map Prod.fst ↔ ∃ v, lookupEntry k l = some v := by
  induction l with
  | nil => simp [lookupEntry]
  | cons e rest ih =>
    by_cases he : e.1 = k
    · simp [lookupEntry, he]
    · have he2 : ¬ k = e.1 := fun h => he h.symm
      simp [lookupEntry, he, he2]
      simpa using ih

/-- A name is a key of a map exactly when the map holds a value for it. -/
theorem GoMap.mem_keys_iff (m : GoMap) (k : String) :
    k ∈ m.keys ↔ ∃ v, m.get? k = some v :=
  mem_keys_iff_lookupEntry k m.entries

/-- The empty map has no value for any name. -/
theorem GoMap.get?_empty (k : String) : GoMap.empty.get? k = none := rfl

/-! ## The local mapping of `OverlayPackageDiff` -/

/-- The first loop, started at index `i` with `remaining` names left and as many versions as
names: it does not panic, every value of the resulting map is either a value of the starting
map or the non-empty version of an occurrence of the name at an index from `i` on, and every
key of the starting map and every name with a non-empty version at an index from `i` on is a
key of the result. -/
theorem localAddedLoop_spec (addedPkgs versions : List String)
    (hlen : versions.length = addedPkgs.length) :
    ∀ (remaining i : Nat) (m : GoMap), i + remaining = addedPkgs.length →
      ∃ l, localAddedLoop addedPkgs versions remaining i m = some l
        ∧ (∀ k v, l.get? k = some v →
            m.get? k = some v ∨
              (v ≠ "" ∧ ∃ j, i ≤ j ∧ addedPkgs[j]? = some k ∧ versions[j]? = some v))
        ∧ (∀ k, ((∃ v, m.get? k = some v) ∨
              (∃ j v, i ≤ j ∧ addedPkgs[j]? = some k ∧ versions[j]? = some v ∧ v ≠ "")) →
            ∃ v, l.get? k = some v) := by
  intro remaining
  induction remaining with
  | zero =>
    intro i m hi
    refine ⟨m, rfl, fun k v h => Or.inl h, ?_⟩
    rintro k (h | ⟨j, v, hij, hj, _, _⟩)
    · exact h
    · have hj2 : j < addedPkgs.length := (List.getElem?_eq_some.mp hj).1
      omega
  | succ n ih =>
    intro i m hi
    have hi1 : i < addedPkgs.length := by omega
    have hi2 : i < versions.length := by omega
    have hnext : i + 1 + n = addedPkgs.length := by omega
    rw [localAddedLoop, List.getElem?_eq_getElem hi2, List.getElem?_eq_getElem hi1]
    simp only []
    by_cases hv : versions[i] = ""
    · rw [if_neg (by simpa using hv)]
      obtain ⟨l, hl, hval, hkey⟩ := ih (i + 1) m hnext
      refine ⟨l, hl, ?_, ?_⟩
      · intro k v h
        rcases hval k v h with h1 | ⟨hne, j, hij, hj, hjv⟩
        · exact Or.inl h1
        · exact Or.inr ⟨hne, j, by omega, hj, hjv⟩
      · rintro k (h | ⟨j, v, hij, hj, hjv, hne⟩)
        · exact hkey k (Or.inl h)
        · by_cases hji : j = i
          · subst hji
            rw [List.getElem?_eq_getElem hi2] at hjv
            exact absurd (hv ▸ (Option.some.inj hjv).symm) hne
          · exact hkey k (Or.inr ⟨j, v, by omega, hj, hjv, hne⟩)
    · rw [if_pos hv]
      obtain ⟨l, hl, hval, hkey⟩ := ih (i + 1) (m.set addedPkgs[i] versions[i]) hnext
      refine ⟨l, hl, ?_, ?_⟩
      · intro k v h
        rcases hval k v h with h1 | ⟨hne, j, hij, hj, hjv⟩
        · rw [GoMap.get?_set] at h1
          by_cases hk : k = addedPkgs[i]
          · rw [if_pos hk] at h1
            have hvv : versions[i] = v := Option.some.inj h1
            refine Or.inr ⟨hvv ▸ hv, i, le_refl i, ?_, ?_⟩
            · rw [List.getElem?_eq_getElem hi1, hk]
            · rw [List.getElem?_eq_getElem hi2, hvv]
          · rw [if_neg hk] at h1
            exact Or.inl h1
        · exact Or.inr ⟨hne, j, by omega, hj, hjv⟩
      · rintro k (⟨v, h⟩ | ⟨j, v, hij, hj, hjv, hne⟩)
        · apply hkey k
          left
          rw [GoMap.get?_set]
          by_cases hk : k = addedPkgs[i]
          · exact ⟨versions[i], by rw [if_pos hk]⟩
          · exact ⟨v, by rw [if_neg hk]; exact h⟩
        · by_cases hji : j = i
          · subst hji
            rw [List.getElem?_eq_getElem hi1] at hj
            apply hkey k
            left
            rw [GoMap.get?_set]
            exact ⟨versions[j], by rw [if_pos (Option.some.inj hj).symm]⟩
          · exact hkey k (Or.inr ⟨j, v, by omega, hj, hjv, hne⟩)

/-- C6: for a list of overlay package names and an equally long list of resolved versions, the
first loop of `OverlayPackageDiff` builds a local mapping (it does not panic) in which a name
is a key exactly when some occurrence of it has a non-empty resolved version; every value of
the mapping is non-empty and is the resolved version of an occurrence of its key; and a name
all of whose resolved versions are empty is not a key. -/
theorem buildLocalAdded_keys (addedPkgs versions : List String)
    (hlen : versions.length = addedPkgs.length) :
    ∃ localAdded, buildLocalAdded addedPkgs versions = some localAdded
      ∧ (∀ k, k ∈ localAdded.keys ↔
          ∃ (i : Nat) (v : String), addedPkgs[i]? = some k ∧ versions[i]? = some v ∧ v ≠ "")
      ∧ (∀ k v, localAdded.get? k = some v →
          v ≠ "" ∧ ∃ i : Nat, addedPkgs[i]? = some k ∧ versions[i]? = some v)
      ∧ (∀ k, (∀ i : Nat, addedPkgs[i]? = some k → versions[i]? = some "") →
          k ∉ localAdded.keys ∧ localAdded.get? k = none) := by
  obtain ⟨l, hl, hval, hkey⟩ :=
    localAddedLoop_spec addedPkgs versions hlen addedPkgs.length 0 GoMap.empty (by omega)
  have hvals : ∀ k v, l.get? k = some v →
      v ≠ "" ∧ ∃ i : Nat, addedPkgs[i]? = some k ∧ versions[i]? = some v := by
    intro k v h
    rcases hval k v h with h1 | ⟨hne, j, _, hj, hjv⟩
    · rw [GoMap.get?_empty] at h1
      exact absurd h1 (by simp)
    · exact ⟨hne, j, hj, hjv⟩
  refine ⟨l, hl, ?_, hvals, ?_⟩
  · intro k
    rw [GoMap.mem_keys_iff]
    constructor
    · rintro ⟨v, h⟩
      obtain ⟨hne, i, hi, hiv⟩ := hvals k v h
      exact ⟨i, v, hi, hiv, hne⟩
    · rintro ⟨i, v, hi, hiv, hne⟩
      exact hkey k (Or.inr ⟨i, v, Nat.zero_le i, hi, hiv, hne⟩)
  · intro k hall
    have hnone : l.get? k = none := by
      cases hg : l.get? k with
      | none => rfl
      | some v =>
        obtain ⟨hne, i, hi, hiv⟩ := hvals k v hg
        rw [hall i hi] at hiv
        exact absurd (Option.some.inj hiv).symm hne
    refine ⟨?_, hnone⟩
    rw [GoMap.mem_keys_iff, hnone]
    simp

/-- Witness for C6: of the overlay packages `vim` and `htop`, resolved to `9.0` and to the
empty version, only `vim` is a key of the local mapping. -/
theorem buildLocalAdded_keys_witness :
    ∃ localAdded, buildLocalAdded ["vim", "htop"] ["9.0", ""] = some localAdded
      ∧ (∀ k, k ∈ localAdded.keys ↔
          ∃ (i : Nat) (v : String), ["vim", "htop"][i]? = some k ∧ ["9.0", ""][i]? = some v ∧ v ≠ "")
      ∧ (∀ k v, localAdded.get? k = some v →
          v ≠ "" ∧ ∃ i : Nat, ["vim", "htop"][i]? = some k ∧ ["9.0", ""][i]? = some v)
      ∧ (∀ k, (∀ i : Nat, ["vim", "htop"][i]? = some k → ["9.0", ""][i]? = some "") →
          k ∉ localAdded.keys ∧ localAdded.get? k = none) :=
  buildLocalAdded_keys ["vim", "htop"] ["9.0", ""] rfl


/-! ## The remote mapping of `OverlayPackageDiff` -/

/-- An upstream version is obtained exactly from a successful lookup whose response has a
string under `"version"`. -/
theorem upstreamVersion_eq_some (env : OverlayEnv) (pkgName v : String) :
    upstreamVersion env pkgName = some v ↔
      ∃ pkgInfo, env.getRepoContentsForPkg pkgName = .ok pkgInfo
        ∧ lookupEntry "version" pkgInfo = some (.str v) := by
  unfold upstreamVersion
  cases hq : env.getRepoContentsForPkg pkgName with
  | error e => simp
  | ok pkgInfo =>
    simp only [Except.ok.injEq, exists_eq_left']
    cases hv : lookupEntry "version" pkgInfo with
    | none => simp [assertString]
    | some x => cases x <;> simp [assertString]

/-- No upstream version is obtained exactly when the lookup fails, or its response has no
`"version"` field, or that field holds something that is not a string. -/
theorem upstreamVersion_eq_none (env : OverlayEnv) (pkgName : String) :
    upstreamVersion env pkgName = none ↔
      ((∃ err, env.getRepoContentsForPkg pkgName = .error err)
        ∨ (∃ pkgInfo, env.getRepoContentsForPkg pkgName = .ok pkgInfo
            ∧ lookupEntry "version" pkgInfo = none)
        ∨ (∃ pkgInfo x, env.getRepoContentsForPkg pkgName = .ok pkgInfo
            ∧ lookupEntry "version" pkgInfo = some x ∧ ∀ s, x ≠ .str s)) := by
  unfold upstreamVersion
  cases hq : env.getRepoContentsForPkg pkgName with
  | error e => simp
  | ok pkgInfo =>
    simp only [Except.ok.injEq, exists_eq_left', false_or, exists_false]
    cases hv : lookupEntry "version" pkgInfo with
    | none => simp [assertString]
    | some x => cases x <;> simp [assertString, hv]

/-- When every package to visit has an upstream version, the second loop looks each of them up
once, in order, and ends with a map that holds the upstream version of every visited package
and is otherwise as it started. -/
theorem remoteAddedLoop_ok (env : OverlayEnv) :
    ∀ (ks : List String) (remoteAdded : GoMap) (calls : List PkgCall),
      (∀ k ∈ ks, ∃ v, upstreamVersion env k = some v) →
      ∃ remote, remoteAddedLoop env ks remoteAdded calls
          = (.ok remote, calls ++ ks.map PkgCall.getRepoContentsForPkg)
        ∧ ∀ k, remote.get? k = if k ∈ ks then upstreamVersion env k else remoteAdded.get? k := by
  intro ks
  induction ks with
  | nil =>
    intro remoteAdded calls _
    exact ⟨remoteAdded, by simp [remoteAddedLoop], by simp⟩
  | cons k0 rest ih =>
    intro remoteAdded calls hall
    obtain ⟨v, hv⟩ := hall k0 (List.mem_cons_self _ _)
    obtain ⟨pkgInfo, hq, hver⟩ := (upstreamVersion_eq_some env k0 v).mp hv
    obtain ⟨remote, hloop, hget⟩ := ih (remoteAdded.set k0 v)
      (calls ++ [PkgCall.getRepoContentsForPkg k0])
      (fun k hk => hall k (List.mem_cons_of_mem _ hk))
    refine ⟨remote, ?_, ?_⟩
    · simp only [remoteAddedLoop, hq, hver, assertString, hloop]
      simp
    · intro k
      rw [hget k, GoMap.get?_set]
      by_cases hk : k ∈ rest
      · simp [hk]
      · by_cases hk0 : k = k0
        · simp [hk0, hv]
        · simp [hk, hk0]

/-- When some package to visit has no upstream version, the second loop returns at the first
such package, with its error, having looked up only the packages before it and that one. -/
theorem remoteAddedLoop_abort (env : OverlayEnv) :
    ∀ (ks : List String) (remoteAdded : GoMap) (calls : List PkgCall),
      (∃ k ∈ ks, upstreamVersion env k = none) →
      ∃ pre k post, ks = pre ++ k :: post
        ∧ (∀ p ∈ pre, ∃ v, upstreamVersion env p = some v)
        ∧ upstreamVersion env k = none
        ∧ remoteAddedLoop env ks remoteAdded calls
            = (.error (lookupError env k),
                calls ++ (pre ++ [k]).map PkgCall.getRepoContentsForPkg) := by
  intro ks
  induction ks with
  | nil =>
    rintro _ _ ⟨k, hk, _⟩
    exact absurd hk (List.not_mem_nil k)
  | cons k0 rest ih =>
    rintro remoteAdded calls ⟨k, hk, hnone⟩
    cases hv0 : upstreamVersion env k0 with
    | none =>
      refine ⟨[], k0, rest, rfl, by simp, hv0, ?_⟩
      unfold upstreamVersion at hv0
      unfold lookupError
      cases hq : env.getRepoContentsForPkg k0 with
      | error e => simp [remoteAddedLoop, hq]
      | ok pkgInfo =>
        rw [hq] at hv0
        simp only [] at hv0
        simp [remoteAddedLoop, hq, hv0]
    | some v =>
      have hkr : k ∈ rest := by
        rcases List.mem_cons.mp hk with h | h
        · rw [h, hv0] at hnone
          exact absurd hnone (by simp)
        · exact h
      obtain ⟨pkgInfo, hq, hver⟩ := (upstreamVersion_eq_some env k0 v).mp hv0
      obtain ⟨pre, k1, post, hsplit, hpre, hk1, hloop⟩ := ih (remoteAdded.set k0 v)
        (calls ++ [PkgCall.getRepoContentsForPkg k0]) ⟨k, hkr, hnone⟩
      refine ⟨k0 :: pre, k1, post, by simp [hsplit], ?_, hk1, ?_⟩
      · intro p hp
        rcases List.mem_cons.mp hp with h | h
        · exact ⟨v, h ▸ hv0⟩
        · exact hpre p h
      · simp only [remoteAddedLoop, hq, hver, assertString, hloop]
        simp

/-- Lookups are not calls of `DiffPackages`. -/
theorem lookups_not_diffPackages (pkgs : List String) (ks : List String) :
    ∀ c ∈ [PkgCall.getAddPackages, PkgCall.dpkgBatchGetPackageVersion pkgs]
        ++ ks.map PkgCall.getRepoContentsForPkg, c.isDiffPackages = false := by
  intro c hc
  rcases List.mem_append.mp hc with h | h
  · simp at h
    rcases h with h | h <;> subst h <;> rfl
  · obtain ⟨k, _, rfl⟩ := List.mem_map.mp h
    rfl


/-! ## `OverlayPackageDiff` -/

/-- The successful run: when the overlay packages are listed, the local mapping is built and
every key of it has an upstream version, `OverlayPackageDiff` looks every key up once, in the
order of the `range` loop, calls `DiffPackages` on the local mapping and the mapping of the
upstream versions, and returns its four lists with a `nil` error. -/
theorem OverlayPackageDiff_ok (env : OverlayEnv)
    (hrange : ∀ m, (env.rangeOrder m).Perm m.keys) (pkgs : List String) (localAdded : GoMap)
    (hpkgs : env.getAddPackages = .ok pkgs)
    (hlocal : buildLocalAdded pkgs (env.dpkgBatchGetPackageVersion pkgs) = some localAdded)
    (hall : ∀ k ∈ localAdded.keys, ∃ v, upstreamVersion env k = some v) :
    ∃ remoteAdded,
      (∀ k, remoteAdded.get? k = if k ∈ localAdded.keys then upstreamVersion env k else none)
      ∧ OverlayPackageDiff env = some
          ({ added := (env.diffPackages localAdded remoteAdded).added,
             upgraded := (env.diffPackages localAdded remoteAdded).upgraded,
             downgraded := (env.diffPackages localAdded remoteAdded).downgraded,
             removed := (env.diffPackages localAdded remoteAdded).removed,
             err := none },
           [PkgCall.getAddPackages, PkgCall.dpkgBatchGetPackageVersion pkgs]
             ++ (env.rangeOrder localAdded).map PkgCall.getRepoContentsForPkg
             ++ [PkgCall.diffPackages localAdded remoteAdded]) := by
  have hmem : ∀ k, k ∈ env.rangeOrder localAdded ↔ k ∈ localAdded.keys :=
    fun k => (hrange localAdded).mem_iff
  obtain ⟨remote, hloop, hget⟩ := remoteAddedLoop_ok env (env.rangeOrder localAdded)
    GoMap.empty [PkgCall.getAddPackages, PkgCall.dpkgBatchGetPackageVersion pkgs]
    (fun k hk => hall k ((hmem k).mp hk))
  refine ⟨remote, ?_, ?_⟩
  · intro k
    rw [hget k, GoMap.get?_empty]
    by_cases hk : k ∈ localAdded.keys
    · rw [if_pos hk, if_pos ((hmem k).mpr hk)]
    · rw [if_neg hk, if_neg (fun h => hk ((hmem k).mp h))]
  · simp only [OverlayPackageDiff, hpkgs, hlocal, hloop]

/-- The aborted run: when the overlay packages are listed, the local mapping is built and some
key of it has no upstream version, `OverlayPackageDiff` returns at the first such key in the
order of the `range` loop, with the error of that key and `nil` lists, having looked up only
the keys before it and that one. -/
theorem OverlayPackageDiff_lookup_abort (env : OverlayEnv)
    (hrange : ∀ m, (env.rangeOrder m).Perm m.keys) (pkgs : List String) (localAdded : GoMap)
    (hpkgs : env.getAddPackages = .ok pkgs)
    (hlocal : buildLocalAdded pkgs (env.dpkgBatchGetPackageVersion pkgs) = some localAdded)
    (hsome : ∃ k ∈ localAdded.keys, upstreamVersion env k = none) :
    ∃ pre k post, env.rangeOrder localAdded = pre ++ k :: post
      ∧ (∀ p ∈ pre, ∃ v, upstreamVersion env p = some v)
      ∧ upstreamVersion env k = none
      ∧ OverlayPackageDiff env = some
          (returnErr (lookupError env k),
           [PkgCall.getAddPackages, PkgCall.dpkgBatchGetPackageVersion pkgs]
             ++ (pre ++ [k]).map PkgCall.getRepoContentsForPkg) := by
  obtain ⟨k, hk, hnone⟩ := hsome
  obtain ⟨pre, k1, post, hsplit, hpre, hk1, hloop⟩ :=
    remoteAddedLoop_abort env (env.rangeOrder localAdded) GoMap.empty
      [PkgCall.getAddPackages, PkgCall.dpkgBatchGetPackageVersion pkgs]
      ⟨k, (hrange localAdded).mem_iff.mpr hk, hnone⟩
  refine ⟨pre, k1, post, hsplit, hpre, hk1, ?_⟩
  simp only [OverlayPackageDiff, hpkgs, hlocal, hloop]

/-- C7: `OverlayPackageDiff` aborts with no partial results. If listing the overlay packages
fails, or if for some key of the local mapping the repository lookup fails, or its response
has no `"version"` field, or that field is not a string, then the returned error is not `nil`,
the four returned lists are empty, and the log of calls holds no call of `DiffPackages`. -/
theorem OverlayPackageDiff_aborts_on_failure (env : OverlayEnv)
    (hrange : ∀ m, (env.rangeOrder m).Perm m.keys)
    (hfail : (∃ err, env.getAddPackages = .error err)
      ∨ (∃ pkgs localAdded k, env.getAddPackages = .ok pkgs
          ∧ buildLocalAdded pkgs (env.dpkgBatchGetPackageVersion pkgs) = some localAdded
          ∧ k ∈ localAdded.keys
          ∧ ((∃ err, env.getRepoContentsForPkg k = .error err)
            ∨ (∃ pkgInfo, env.getRepoContentsForPkg k = .ok pkgInfo
                ∧ lookupEntry "version" pkgInfo = none)
            ∨ (∃ pkgInfo x, env.getRepoContentsForPkg k = .ok pkgInfo
                ∧ lookupEntry "version" pkgInfo = some x ∧ ∀ s, x ≠ .str s)))) :
    ∃ r calls, OverlayPackageDiff env = some (r, calls)
      ∧ r.err ≠ none
      ∧ r.added = [] ∧ r.upgraded = [] ∧ r.downgraded = [] ∧ r.removed = []
      ∧ ∀ c ∈ calls, c.isDiffPackages = false := by
  rcases hfail with ⟨err, herr⟩ | ⟨pkgs, localAdded, k, hpkgs, hlocal, hk, hbad⟩
  · refine ⟨returnErr err, [PkgCall.getAddPackages], ?_, by simp [returnErr], rfl, rfl, rfl,
      rfl, ?_⟩
    · simp only [OverlayPackageDiff, herr]
    · intro c hc
      rw [List.mem_singleton.mp hc]
      rfl
  · obtain ⟨pre, k1, post, _, _, _, hrun⟩ :=
      OverlayPackageDiff_lookup_abort env hrange pkgs localAdded hpkgs hlocal
        ⟨k, hk, (upstreamVersion_eq_none env k).mpr hbad⟩
    exact ⟨_, _, hrun, by simp [returnErr], rfl, rfl, rfl, rfl,
      lookups_not_diffPackages pkgs (pre ++ [k1])⟩

/-- Witness for C7: `vim` and `htop` are both installed, and the repository's response for
`htop` has no `"version"` field. -/
theorem OverlayPackageDiff_aborts_on_failure_witness :
    ∃ r calls, OverlayPackageDiff (exampleEnv (.ok ["vim", "htop"]) ["9.0", "3.2"])
        = some (r, calls)
      ∧ r.err ≠ none
      ∧ r.added = [] ∧ r.upgraded = [] ∧ r.downgraded = [] ∧ r.removed = []
      ∧ ∀ c ∈ calls, c.isDiffPackages = false :=
  OverlayPackageDiff_aborts_on_failure (exampleEnv (.ok ["vim", "htop"]) ["9.0", "3.2"])
    (fun _ => List.Perm.refl _)
    (Or.inr ⟨["vim", "htop"], ⟨[("htop", "3.2"), ("vim", "9.0")]⟩, "htop", rfl, by decide,
      by decide, Or.inr (Or.inl ⟨[("name", .str "htop")], rfl, rfl⟩)⟩)

/-- C8: when listing the overlay packages succeeds, the local mapping is built, and the lookup
of every key of the local mapping succeeds with a string under `"version"`,
`OverlayPackageDiff` returns a `nil` error and exactly the four lists of `DiffPackages` called
once, last, with the local mapping as old versions and, as new versions, the remote mapping,
which holds for each key of the local mapping its upstream version and nothing else. -/
theorem OverlayPackageDiff_returns_DiffPackages (env : OverlayEnv)
    (hrange : ∀ m, (env.rangeOrder m).Perm m.keys) (pkgs : List String) (localAdded : GoMap)
    (hpkgs : env.getAddPackages = .ok pkgs)
    (hlocal : buildLocalAdded pkgs (env.dpkgBatchGetPackageVersion pkgs) = some localAdded)
    (hall : ∀ k ∈ localAdded.keys, ∃ pkgInfo v, env.getRepoContentsForPkg k = .ok pkgInfo
      ∧ lookupEntry "version" pkgInfo = some (.str v)) :
    ∃ remoteAdded r calls,
      (∀ k, remoteAdded.get? k = if k ∈ localAdded.keys then upstreamVersion env k else none)
      ∧ OverlayPackageDiff env
          = some (r, calls ++ [PkgCall.diffPackages localAdded remoteAdded])
      ∧ (∀ c ∈ calls, c.isDiffPackages = false)
      ∧ r.err = none
      ∧ r.lists = env.diffPackages localAdded remoteAdded
      ∧ r.added = (env.diffPackages localAdded remoteAdded).added
      ∧ r.upgraded = (env.diffPackages localAdded remoteAdded).upgraded
      ∧ r.downgraded = (env.diffPackages localAdded remoteAdded).downgraded
      ∧ r.removed = (env.diffPackages localAdded remoteAdded).removed := by
  obtain ⟨remote, hget, hrun⟩ := OverlayPackageDiff_ok env hrange pkgs localAdded hpkgs hlocal
    (fun k hk => by
      obtain ⟨pkgInfo, v, hq, hv⟩ := hall k hk
      exact ⟨v, (upstreamVersion_eq_some env k v).mpr ⟨pkgInfo, hq, hv⟩⟩)
  exact ⟨remote, _, _, hget, hrun, lookups_not_diffPackages pkgs _, rfl, rfl, rfl, rfl, rfl,
    rfl⟩

/-- Witness for C8: `vim` is installed at `9.0` and upstream at `9.1`, `htop` is not
installed; `DiffPackages` is called on `vim ↦ 9.0` and a remote mapping with `vim ↦ 9.1`. -/
theorem OverlayPackageDiff_returns_DiffPackages_witness :
    ∃ remoteAdded r calls,
      remoteAdded.get? "vim" = some "9.1"
      ∧ OverlayPackageDiff (exampleEnv (.ok ["vim", "htop"]) ["9.0", ""])
          = some (r, calls ++ [PkgCall.diffPackages ⟨[("vim", "9.0")]⟩ remoteAdded])
      ∧ r.err = none
      ∧ r.lists = specDiffPackages exampleOrderedAfter ⟨[("vim", "9.0")]⟩ remoteAdded :=
  have h := OverlayPackageDiff_returns_DiffPackages
    (exampleEnv (.ok ["vim", "htop"]) ["9.0", ""]) (fun _ => List.Perm.refl _)
    ["vim", "htop"] ⟨[("vim", "9.0")]⟩ rfl (by decide)
    (fun k hk => by
      have hk2 : k = "vim" := by simpa [GoMap.keys] using hk
      subst hk2
      exact ⟨[("name", .str "vim"), ("version", .str "9.1")], "9.1", rfl, rfl⟩)
  match h with
  | ⟨remoteAdded, r, calls, hget, hrun, _, herr, hlists, _⟩ =>
    ⟨remoteAdded, r, calls, by rw [hget "vim"]; rfl, hrun, herr, hlists⟩


/-- The key set of the remote mapping: whenever the log of `OverlayPackageDiff` holds a call of
`DiffPackages`, its first argument is the local mapping, and its second argument holds for each
key of the local mapping the upstream version of that key and nothing else. -/
theorem OverlayPackageDiff_diffPackages_args (env : OverlayEnv)
    (hrange : ∀ m, (env.rangeOrder m).Perm m.keys) (r : PkgDiffReturn) (calls : List PkgCall)
    (localAdded remoteAdded : GoMap) (hrun : OverlayPackageDiff env = some (r, calls))
    (hcall : PkgCall.diffPackages localAdded remoteAdded ∈ calls) :
    (∃ pkgs, env.getAddPackages = .ok pkgs
      ∧ buildLocalAdded pkgs (env.dpkgBatchGetPackageVersion pkgs) = some localAdded)
    ∧ (∀ k ∈ localAdded.keys, ∃ v, upstreamVersion env k = some v)
    ∧ (∀ k, remoteAdded.get? k
        = if k ∈ localAdded.keys then upstreamVersion env k else none) := by
  cases hpkgs : env.getAddPackages with
  | error err =>
    simp only [OverlayPackageDiff, hpkgs, Option.some.injEq, Prod.mk.injEq] at hrun
    rw [← hrun.2] at hcall
    simp at hcall
  | ok pkgs =>
    cases hlocal : buildLocalAdded pkgs (env.dpkgBatchGetPackageVersion pkgs) with
    | none =>
      simp [OverlayPackageDiff, hpkgs, hlocal] at hrun
    | some l =>
      by_cases hall : ∀ k ∈ l.keys, ∃ v, upstreamVersion env k = some v
      · obtain ⟨remote, hget, hok⟩ := OverlayPackageDiff_ok env hrange pkgs l hpkgs hlocal hall
        rw [hok] at hrun
        simp only [Option.some.injEq, Prod.mk.injEq] at hrun
        rw [← hrun.2] at hcall
        rcases List.mem_append.mp hcall with h | h
        · have := lookups_not_diffPackages pkgs (env.rangeOrder l) _ h
          simp [PkgCall.isDiffPackages] at this
        · simp only [List.mem_singleton, PkgCall.diffPackages.injEq] at h
          obtain ⟨h1, h2⟩ := h
          subst h1 h2
          exact ⟨⟨pkgs, rfl, hlocal⟩, hall, hget⟩
      · have hsome : ∃ k ∈ l.keys, upstreamVersion env k = none := by
          by_contra hcon
          apply hall
          intro k hk
          cases hv : upstreamVersion env k with
          | none => exact absurd ⟨k, hk, hv⟩ hcon
          | some v => exact ⟨v, rfl⟩
        obtain ⟨pre, k1, post, _, _, _, hab⟩ :=
          OverlayPackageDiff_lookup_abort env hrange pkgs l hpkgs hlocal hsome
        rw [hab] at hrun
        simp only [Option.some.injEq, Prod.mk.injEq] at hrun
        rw [← hrun.2] at hcall
        have := lookups_not_diffPackages pkgs (pre ++ [k1]) _ hcall
        simp [PkgCall.isDiffPackages] at this

/-- Under the classification of the specification, two mappings with the same keys give no
added and no removed package. -/
theorem specDiffPackages_same_keys (orderedAfter : String → String → Bool)
    (oldVersions newVersions : GoMap)
    (hkeys : ∀ k, k ∈ newVersions.keys ↔ k ∈ oldVersions.keys) :
    (specDiffPackages orderedAfter oldVersions newVersions).added = []
    ∧ (specDiffPackages orderedAfter oldVersions newVersions).removed = [] := by
  have hboth : ∀ k, (∃ v, newVersions.get? k = some v) ↔ (∃ v, oldVersions.get? k = some v) := by
    intro k
    rw [← GoMap.mem_keys_iff, ← GoMap.mem_keys_iff]
    exact hkeys k
  have hcls : ∀ k, classify orderedAfter (oldVersions.get? k) (newVersions.get? k)
      ≠ some .added ∧ classify orderedAfter (oldVersions.get? k) (newVersions.get? k)
      ≠ some .removed := by
    intro k
    cases ho : oldVersions.get? k with
    | none =>
      cases hn : newVersions.get? k with
      | none => simp [classify]
      | some n =>
        obtain ⟨v, hv⟩ := (hboth k).mp ⟨n, hn⟩
        rw [ho] at hv
        exact absurd hv (by simp)
    | some o =>
      cases hn : newVersions.get? k with
      | none =>
        obtain ⟨v, hv⟩ := (hboth k).mpr ⟨o, ho⟩
        rw [hn] at hv
        exact absurd hv (by simp)
      | some n =>
        simp only [classify]
        constructor <;> (split_ifs <;> simp)
  constructor
  · show entriesOfClass orderedAfter oldVersions newVersions .added = []
    unfold entriesOfClass
    rw [List.filterMap_eq_nil_iff]
    intro k _
    rw [if_neg (hcls k).1]
  · show entriesOfClass orderedAfter oldVersions newVersions .removed = []
    unfold entriesOfClass
    rw [List.filterMap_eq_nil_iff]
    intro k _
    rw [if_neg (hcls k).2]

/-- C10: whenever `OverlayPackageDiff` reaches `DiffPackages`, the mappings it hands over are
the local mapping and a remote mapping with exactly the same keys, so that no name is a key of
only one of them; hence the classification of the specification, applied to these two
mappings, reports no package as added and none as removed. -/
theorem OverlayPackageDiff_same_key_set (env : OverlayEnv)
    (hrange : ∀ m, (env.rangeOrder m).Perm m.keys) (orderedAfter : String → String → Bool)
    (r : PkgDiffReturn) (calls : List PkgCall) (localAdded remoteAdded : GoMap)
    (hrun : OverlayPackageDiff env = some (r, calls))
    (hcall : PkgCall.diffPackages localAdded remoteAdded ∈ calls) :
    (∃ pkgs, env.getAddPackages = .ok pkgs
      ∧ buildLocalAdded pkgs (env.dpkgBatchGetPackageVersion pkgs) = some localAdded)
    ∧ (∀ k, k ∈ remoteAdded.keys ↔ k ∈ localAdded.keys)
    ∧ (specDiffPackages orderedAfter localAdded remoteAdded).added = []
    ∧ (specDiffPackages orderedAfter localAdded remoteAdded).removed = [] := by
  obtain ⟨hl, hall, hget⟩ :=
    OverlayPackageDiff_diffPackages_args env hrange r calls localAdded remoteAdded hrun hcall
  have hkeys : ∀ k, k ∈ remoteAdded.keys ↔ k ∈ localAdded.keys := by
    intro k
    rw [GoMap.mem_keys_iff, hget k]
    by_cases hk : k ∈ localAdded.keys
    · simpa [hk] using hall k hk
    · simp [hk]
  exact ⟨hl, hkeys, specDiffPackages_same_keys orderedAfter localAdded remoteAdded hkeys⟩

/-- Witness for C10: with `vim` installed at `9.0` and upstream at `9.1` and `htop` not
installed, `DiffPackages` is reached with `vim` as the only key on both sides. -/
theorem OverlayPackageDiff_same_key_set_witness :
    OverlayPackageDiff (exampleEnv (.ok ["vim", "htop"]) ["9.0", ""])
      = some (⟨[], [⟨"vim", "9.0", "9.1"⟩], [], [], none⟩,
          [PkgCall.getAddPackages, PkgCall.dpkgBatchGetPackageVersion ["vim", "htop"],
           PkgCall.getRepoContentsForPkg "vim",
           PkgCall.diffPackages ⟨[("vim", "9.0")]⟩ ⟨[("vim", "9.1")]⟩])
    ∧ (∀ k, k ∈ (⟨[("vim", "9.1")]⟩ : GoMap).keys ↔ k ∈ (⟨[("vim", "9.0")]⟩ : GoMap).keys)
    ∧ (specDiffPackages exampleOrderedAfter ⟨[("vim", "9.0")]⟩ ⟨[("vim", "9.1")]⟩).added = []
    ∧ (specDiffPackages exampleOrderedAfter ⟨[("vim", "9.0")]⟩ ⟨[("vim", "9.1")]⟩).removed
        = [] :=
  have hrun : OverlayPackageDiff (exampleEnv (.ok ["vim", "htop"]) ["9.0", ""])
      = some (⟨[], [⟨"vim", "9.0", "9.1"⟩], [], [], none⟩,
          [PkgCall.getAddPackages, PkgCall.dpkgBatchGetPackageVersion ["vim", "htop"],
           PkgCall.getRepoContentsForPkg "vim",
           PkgCall.diffPackages ⟨[("vim", "9.0")]⟩ ⟨[("vim", "9.1")]⟩]) := by decide
  ⟨hrun, (OverlayPackageDiff_same_key_set (exampleEnv (.ok ["vim", "htop"]) ["9.0", ""])
    (fun _ => List.Perm.refl _) exampleOrderedAfter _ _ ⟨[("vim", "9.0")]⟩
    ⟨[("vim", "9.1")]⟩ hrun (by simp)).2⟩

/-! ## `BaseImagePackageDiff` -/

/-- C9: `BaseImagePackageDiff` returns an error that is not `nil` and four empty lists whenever
the request cannot be made, the HTTP exchange fails, the status is not 200, the body cannot be
read, or the body cannot be parsed; a `nil` error is returned only for a response with status
200 whose body is read and parsed, and then the four lists are the `Added`, `Upgraded`,
`Downgraded` and `Removed` arrays of the parsed body; and such a response, once the request is
made, does give a `nil` error and these arrays. -/
theorem BaseImagePackageDiff_error_or_arrays (env : HttpEnv) (currentDigest newDigest : String) :
    (((∃ err, env.newRequest "GET" (reqUrl env) (reqBody currentDigest newDigest) = some err)
        ∨ (∃ err, env.clientDo "GET" (reqUrl env) (reqBody currentDigest newDigest)
            = .error err)
        ∨ (∃ resp, env.clientDo "GET" (reqUrl env) (reqBody currentDigest newDigest) = .ok resp
            ∧ (resp.statusCode ≠ 200
              ∨ (∃ err, resp.readAll = .error err)
              ∨ (∃ contents err, resp.readAll = .ok contents
                  ∧ env.jsonUnmarshal contents = .error err)))) →
      (BaseImagePackageDiff env currentDigest newDigest).err ≠ none
        ∧ (BaseImagePackageDiff env currentDigest newDigest).lists = ⟨[], [], [], []⟩)
    ∧ ((BaseImagePackageDiff env currentDigest newDigest).err = none →
        ∃ resp contents pkgDiff,
          env.clientDo "GET" (reqUrl env) (reqBody currentDigest newDigest) = .ok resp
          ∧ resp.statusCode = 200
          ∧ resp.readAll = .ok contents
          ∧ env.jsonUnmarshal contents = .ok pkgDiff
          ∧ (BaseImagePackageDiff env currentDigest newDigest).lists = pkgDiff)
    ∧ (∀ resp contents pkgDiff,
        env.newRequest "GET" (reqUrl env) (reqBody currentDigest newDigest) = none →
        env.clientDo "GET" (reqUrl env) (reqBody currentDigest newDigest) = .ok resp →
        resp.statusCode = 200 →
        resp.readAll = .ok contents →
        env.jsonUnmarshal contents = .ok pkgDiff →
        (BaseImagePackageDiff env currentDigest newDigest).err = none
          ∧ (BaseImagePackageDiff env currentDigest newDigest).lists = pkgDiff) := by
  unfold BaseImagePackageDiff
  simp only []
  cases hreq : env.newRequest "GET" (reqUrl env) (reqBody currentDigest newDigest) with
  | some e => simp [returnErr, PkgDiffReturn.lists]
  | none =>
    cases hdo : env.clientDo "GET" (reqUrl env) (reqBody currentDigest newDigest) with
    | error e => simp [returnErr, PkgDiffReturn.lists]
    | ok resp =>
      by_cases hst : resp.statusCode = 200
      · cases hread : resp.readAll with
        | error e =>
          simp [returnErr, PkgDiffReturn.lists, hst, statusOK, hread]
          intro r c d h1 _ h3
          subst h1
          simp [hread] at h3
        | ok contents =>
          cases hjson : env.jsonUnmarshal contents with
          | error e =>
            simp [returnErr, PkgDiffReturn.lists, hst, statusOK, hread, hjson]
            intro r c d h1 _ h3 h4
            subst h1
            simp only [hread, Except.ok.injEq] at h3
            subst h3
            simp [hjson] at h4
          | ok pkgDiff =>
            simp [returnErr, PkgDiffReturn.lists, hst, statusOK, hread, hjson]
            intro r c d h1 _ h3 h4
            subst h1
            simp only [hread, Except.ok.injEq] at h3
            subst h3
            simp only [hjson, Except.ok.injEq] at h4
            exact h4
      · simp [returnErr, PkgDiffReturn.lists, hst, statusOK]
        intro r c d h1 h2
        subst h1
        exact absurd h2 hst

/-- Witness for C9: a response with status 500 gives an error and empty lists; a response with
status 200 and a body that parses gives a `nil` error and the arrays of the body. -/
theorem BaseImagePackageDiff_error_or_arrays_witness :
    ((BaseImagePackageDiff (exampleHttp (.ok ⟨500, "500 Internal Server Error", .ok [1]⟩))
          "sha256:aa" "sha256:bb").err ≠ none
      ∧ (BaseImagePackageDiff (exampleHttp (.ok ⟨500, "500 Internal Server Error", .ok [1]⟩))
          "sha256:aa" "sha256:bb").lists = ⟨[], [], [], []⟩)
    ∧ ((BaseImagePackageDiff (exampleHttp (.ok ⟨200, "200 OK", .ok [1]⟩))
          "sha256:aa" "sha256:bb").err = none
      ∧ (BaseImagePackageDiff (exampleHttp (.ok ⟨200, "200 OK", .ok [1]⟩))
          "sha256:aa" "sha256:bb").lists = ⟨[], [⟨"vim", "9.0", "9.1"⟩], [], []⟩) :=
  ⟨(BaseImagePackageDiff_error_or_arrays
      (exampleHttp (.ok ⟨500, "500 Internal Server Error", .ok [1]⟩)) "sha256:aa" "sha256:bb").1
      (Or.inr (Or.inr ⟨⟨500, "500 Internal Server Error", .ok [1]⟩, rfl, Or.inl (by decide)⟩)),
   (BaseImagePackageDiff_error_or_arrays
      (exampleHttp (.ok ⟨200, "200 OK", .ok [1]⟩)) "sha256:aa" "sha256:bb").2.2
      ⟨200, "200 OK", .ok [1]⟩ [1] ⟨[], [⟨"vim", "9.0", "9.1"⟩], [], []⟩ rfl rfl rfl rfl rfl⟩


end ABRoot
